import Mathlib

/-!
Shallow embedding of `src/src/tasks/task1.rs` from QED-it/verifiable_encryption:
a halo2 circuit proving that an ElGamal ciphertext encrypts the curve-point
encoding of a secret message scalar.

The base field of the Pallas curve (= the scalar field of Vesta, over which the
public instance lives) is `F = ZMod P`.  Curve points are affine pairs or the
identity; the halo2 ECC gadget represents the identity's coordinates as (0, 0).

The backend chips (`add_sub_mul`, the ECC gadget, Sinsemilla) are external to
this repository: their semantics are embedded as field arithmetic, the complete
Pallas group law, and a list of emitted constraints (equal-to-zero checks and
instance-column bindings), exactly in the order `MyCircuit::synthesize` emits
them.
-/

namespace VerEnc

set_option maxRecDepth 100000

/-- The Pallas base-field modulus (= the Vesta scalar-field modulus),
`0x40000000000000000000000000000000224698fc094cf91b992d30ed00000001`. -/
def P : Nat := 28948022309329048855892746252171976963363056481941560715954676764349967630337

/-- The field `pallas::Base` (= `vesta::Scalar`). -/
abbrev F : Type := ZMod P

/-- Modular exponentiation by squaring, structurally recursive on a fuel
parameter so that the kernel can evaluate it on concrete inputs. -/
def powModAux : Nat → Nat → Nat → Nat → Nat
  | 0, _, _, _ => 1
  | fuel + 1, b, e, m =>
    if e = 0 then 1 % m
    else
      let h := powModAux fuel (b * b % m) (e / 2) m
      if e % 2 = 1 then b * h % m else h

/-- `powMod b e m = b ^ e % m`, evaluable by the kernel. -/
def powMod (b e m : Nat) : Nat := powModAux 300 b e m

/-- Field inverse via Fermat's little theorem (the backend's field inversion). -/
def finv (a : F) : F := ((powMod a.val (P - 2) P : Nat) : F)

/-- A Pallas point: the identity, or an affine pair.  (`pallas::Point`;
every non-identity point of the curve satisfies y² = x³ + 5.) -/
inductive Point : Type
  | identity : Point
  | affine (x y : F) : Point
deriving DecidableEq

/-- Complete affine addition on Pallas (the semantics of the ECC gadget's
point addition). -/
def pointAdd : Point → Point → Point
  | Point.identity, Q => Q
  | Pt, Point.identity => Pt
  | Point.affine x1 y1, Point.affine x2 y2 =>
    if x1 = x2 then
      if y1 = -y2 then Point.identity
      else
        let l := (3 * (x1 * x1)) * finv (2 * y1)
        let x3 := l * l - 2 * x1
        Point.affine x3 (l * (x1 - x3) - y1)
    else
      let l := (y2 - y1) * finv (x2 - x1)
      let x3 := l * l - x1 - x2
      Point.affine x3 (l * (x1 - x3) - y1)

/-- Double-and-add scalar multiplication, fuelled for kernel evaluation
(the semantics of the ECC gadget's variable-base scalar multiplication). -/
def scalarMulAux : Nat → Nat → Point → Point
  | 0, _, _ => Point.identity
  | fuel + 1, n, Pt =>
    if n = 0 then Point.identity
    else
      let h := scalarMulAux fuel (n / 2) Pt
      let h2 := pointAdd h h
      if n % 2 = 1 then pointAdd h2 Pt else h2

/-- `[n]P` on Pallas. -/
def scalarMul (n : Nat) (Pt : Point) : Point := scalarMulAux 300 n Pt

/-- `pallas::Affine::generator()`: the fixed generator G = (−1, 2). -/
def generator : Point := Point.affine (-1) 2

/-- `to_affine().coordinates()`: `some (x, y)` for a non-identity point,
`none` for the identity (whose `unwrap()` panics in the source). -/
def coordinates : Point → Option (F × F)
  | Point.identity => none
  | Point.affine x y => some (x, y)

/-- x-coordinate as extracted by the ECC gadget's coordinate cells
(the identity is represented as (0, 0) in the gadget). -/
def xCoord : Point → F
  | Point.identity => 0
  | Point.affine x _ => x

/-- y-coordinate as extracted by the ECC gadget's coordinate cells. -/
def yCoord : Point → F
  | Point.identity => 0
  | Point.affine _ y => y

/-- Instance slot indices, `const ZERO ..= ELGAMAL_PK_Y` in the source. -/
def ZERO : Nat := 0

/-- Slot of `ct.c1.x`. -/
def ELGAMAL_CT1_X : Nat := 1

/-- Slot of `ct.c1.y`. -/
def ELGAMAL_CT1_Y : Nat := 2

/-- Slot of `ct.c2.x`. -/
def ELGAMAL_CT2_X : Nat := 3

/-- Slot of `ct.c2.y`. -/
def ELGAMAL_CT2_Y : Nat := 4

/-- Slot of `elgamal_public_key.x`. -/
def ELGAMAL_PK_X : Nat := 5

/-- Slot of `elgamal_public_key.y`. -/
def ELGAMAL_PK_Y : Nat := 6

/-- An ElGamal ciphertext `(c1, c2)` (from `crate::elgamal`, used by the
source as `self.ct.ct.c1` / `self.ct.ct.c2`). -/
structure Ciphertext : Type where
  c1 : Point
  c2 : Point
deriving DecidableEq

/-- `DataInTransmit` (from `crate::elgamal::extended_elgamal`): the ciphertext
together with the encode randomness, as the source reads `self.ct.ct` and
`self.ct.r_encode`. -/
structure DataInTransmit : Type where
  ct : Ciphertext
  r_encode : F
deriving DecidableEq

/-- The circuit struct `MyCircuit`: transmitted data, the ElGamal public key,
and the private witness `(m, p_m, r_enc)`. -/
structure MyCircuit : Type where
  ct : DataInTransmit
  elgamal_public_key : Point
  m : F
  p_m : Point
  r_enc : F
deriving DecidableEq

/-- The public-input struct `MyInstance`. -/
structure MyInstance : Type where
  ct : DataInTransmit
  elgamal_public_key : Point
deriving DecidableEq

/-- A constraint emitted during synthesis: either an equal-to-zero check
(`check_result (res, 0)`) or the binding of a circuit cell value to an
instance-column slot (`layouter.constrain_instance`). -/
inductive Constraint : Type
  | eqZero (v : F) : Constraint
  | bindInstance (v : F) (slot : Nat) : Constraint
deriving DecidableEq

/-- Whether a constraint holds against a 7-slot public instance. -/
def Constraint.check : Constraint → List F → Bool
  | Constraint.eqZero v, _ => decide (v = 0)
  | Constraint.bindInstance v slot, inst => decide (inst.getD slot 0 = v)

/-- `MyCircuit::synthesize`, as the list of constraints it emits, in source
order.  `NonIdentityPoint::new` on `p_m` and on `elgamal_public_key` requires
an affine representation, so an identity point there makes the circuit
unsatisfiable (`none`).  The generator is loaded as a fixed non-identity
point.  Emission order follows the source: the (1.1) zero check, the (1.2)
zero check, then instance bindings for ct1 (slots 1, 2), the public key
(slots 5, 6) and ct2 (slots 3, 4). -/
def synthesize (c : MyCircuit) : Option (List Constraint) :=
  match coordinates c.p_m, coordinates c.elgamal_public_key with
  | some (px, py), some (pkx, pky) =>
    let r_encode := c.ct.r_encode
    let exp_m := c.m + r_encode
    let res1 := exp_m - px
    let x2 := px * px
    let x3 := px * x2
    let five : F := 5
    let left := x3 + five
    let right := py * py
    let res2 := left - right
    let ct1_expected := scalarMul c.r_enc.val generator
    let r_mul_pk := scalarMul c.r_enc.val c.elgamal_public_key
    let ct_2_expected := pointAdd r_mul_pk c.p_m
    some
      [Constraint.eqZero res1,
       Constraint.eqZero res2,
       Constraint.bindInstance (xCoord ct1_expected) ELGAMAL_CT1_X,
       Constraint.bindInstance (yCoord ct1_expected) ELGAMAL_CT1_Y,
       Constraint.bindInstance pkx ELGAMAL_PK_X,
       Constraint.bindInstance pky ELGAMAL_PK_Y,
       Constraint.bindInstance (xCoord ct_2_expected) ELGAMAL_CT2_X,
       Constraint.bindInstance (yCoord ct_2_expected) ELGAMAL_CT2_Y]
  | _, _ => none

/-- Boolean satisfaction check: synthesis succeeds and every emitted
constraint checks out against the public instance. -/
def checks (c : MyCircuit) (inst : List F) : Bool :=
  match synthesize c with
  | none => false
  | some cs => cs.all (fun con => con.check inst)

/-- The witness `c` together with public instance `inst` satisfies the
circuit (the backend produces a proof exactly when this holds, and the
verifier accepts exactly the instances for which such a witness was proven). -/
def satisfies (c : MyCircuit) (inst : List F) : Prop :=
  checks c inst = true

/-- `MyInstance::to_halo2_instance`.  The source first fills the 7-element
array with one random scalar (`rand` here), then overwrites slot 0 with zero
and every other slot with an affine coordinate obtained through
`to_affine().coordinates().unwrap()`; the `unwrap` panics on an identity
point, modelled as `none`. -/
def to_halo2_instance (i : MyInstance) (rand : F) : Option (List F) :=
  match coordinates i.ct.ct.c1, coordinates i.ct.ct.c2,
        coordinates i.elgamal_public_key with
  | some (c1x, c1y), some (c2x, c2y), some (pkx, pky) =>
    some ((((((((List.replicate 7 rand).set ZERO 0).set ELGAMAL_CT1_X
        c1x).set ELGAMAL_CT1_Y c1y).set ELGAMAL_CT2_X c2x).set ELGAMAL_CT2_Y
        c2y).set ELGAMAL_PK_X pkx).set ELGAMAL_PK_Y pky)
  | _, _, _ => none

/-- The public instance the round-trip test builds for a circuit
(`MyInstance { ct: circuit.ct, elgamal_public_key: circuit.elgamal_public_key }`). -/
def circuitInstance (c : MyCircuit) : MyInstance :=
  { ct := c.ct, elgamal_public_key := c.elgamal_public_key }

/-- Modelled from the spec: ElGamal key generation (`crate::elgamal`, not
under `src/`): `public_key = secret_key · Generator`. -/
def elgamal_public_key_of (sk : F) : Point :=
  scalarMul sk.val generator

/-- Modelled from the spec: ElGamal encryption of a curve point
(`crate::elgamal`, not under `src/`): `c1 = r_enc · Generator`,
`c2 = message_point + r_enc · public_key`. -/
def elgamal_encrypt (pk message_point : Point) (r_enc : F) : Ciphertext :=
  { c1 := scalarMul r_enc.val generator
    c2 := pointAdd (scalarMul r_enc.val pk) message_point }

/-- Modelled from the spec: the Encode-to-Curve Map (`crate::encode`, not
under `src/`): `encode(m; r_encode)` returns the affine point with
`x = r_encode + m` and `y` a square root of `x³ + 5`; the predicate holds of
exactly the valid outputs. -/
def is_encode_of (m r_encode : F) : Point → Bool
  | Point.identity => false
  | Point.affine x y => decide (x = r_encode + m ∧ y * y = x * x * x + 5)

/-- Modelled from the spec: the honest prover's circuit for message scalar
`m`: encode `m` with randomness `r_encode` (square-root witness `y`),
encrypt the encoded point under the public key of `sk` with encryption
randomness `r_enc`, and assemble `MyCircuit` as `create_circuit` does. -/
def honest_circuit (m r_encode r_enc sk y : F) : MyCircuit :=
  { ct := { ct := elgamal_encrypt (elgamal_public_key_of sk)
                    (Point.affine (r_encode + m) y) r_enc
            r_encode := r_encode }
    elgamal_public_key := elgamal_public_key_of sk
    m := m
    p_m := Point.affine (r_encode + m) y
    r_enc := r_enc }

/-- Fuelled chunking loop for the block codec. -/
def splitAux : Nat → List Nat → Nat → List (List Nat)
  | 0, _, _ => []
  | _, [], _ => []
  | fuel + 1, l, bs => l.take bs :: splitAux fuel (l.drop bs) bs

/-- Modelled from the spec: `split_message_into_blocks`
(`crate::encode::utf8`, not under `src/`): chunks of at most `block_size`
bytes, last chunk possibly shorter, order preserved. -/
def split_message_into_blocks (msg : List Nat) (block_size : Nat) : List (List Nat) :=
  splitAux msg.length msg block_size

/-- Modelled from the spec: packing a message block into a field scalar
(`convert_string_to_u8_array` / `convert_u8_array_to_u64_array` /
`from_raw`, not under `src/`): zero-pad to the field's byte width and read
little-endian. -/
def pack (bytes : List Nat) : F :=
  ((bytes.foldr (fun b acc => b + 256 * acc) 0 : Nat) : F)

/-- The test message of `tests::round_trip`. -/
def test_message : String := "This is a short message."

/-- The UTF-8 bytes of the test message (all ASCII). -/
def message_bytes : List Nat :=
  test_message.data.map Char.toNat

/-- Does a constraint bind the value `v` to some instance slot? -/
def bindsValue (con : Constraint) (v : F) : Bool :=
  match con with
  | Constraint.bindInstance w _ => decide (w = v)
  | _ => false

/-- The instance slots bound by a constraint list, in emission order. -/
def boundSlots (cs : List Constraint) : List Nat :=
  cs.filterMap fun con =>
    match con with
    | Constraint.bindInstance _ s => some s
    | _ => none

/-! ### Concrete example data

A small satisfying circuit used to instantiate hypotheses on concrete
inputs: `r_enc = 0` (so `ct1 = identity`, represented (0,0) by the gadget),
`p_m = pk = G = (−1, 2)`, `r_encode = 42`, `m = −43` (so `m + r_encode`
equals `G.x = −1`). -/

/-- A concrete satisfying circuit. -/
def exCircuit : MyCircuit :=
  { ct := { ct := { c1 := generator, c2 := generator }, r_encode := 42 }
    elgamal_public_key := generator
    m := -43
    p_m := generator
    r_enc := 0 }

/-- The public instance satisfied together with `exCircuit`. -/
def exInst : List F := [0, 0, 0, -1, 2, -1, 2]

/-- The constraint list `synthesize exCircuit` emits. -/
def exConstraints : List Constraint :=
  [Constraint.eqZero 0,
   Constraint.eqZero 0,
   Constraint.bindInstance 0 ELGAMAL_CT1_X,
   Constraint.bindInstance 0 ELGAMAL_CT1_Y,
   Constraint.bindInstance (-1) ELGAMAL_PK_X,
   Constraint.bindInstance 2 ELGAMAL_PK_Y,
   Constraint.bindInstance (-1) ELGAMAL_CT2_X,
   Constraint.bindInstance 2 ELGAMAL_CT2_Y]

/-- x-coordinate of `[2]G` on Pallas. -/
def g2x : F := 12664759760331458874453076485325239921471337210849432813230171084403110838275

/-- y-coordinate of `[2]G` on Pallas. -/
def g2y : F := 19449452489080454700052938888178047022259553573804486106032048451047634501628

/-- The message scalar of the single block of the test message. -/
def c7_m : F := pack message_bytes

/-- An encode randomness for which encoding the block succeeds: it places
the encoded x-coordinate at the generator's x-coordinate −1. -/
def c7_r_encode : F := -1 - c7_m

/-- The honest circuit for the test-message block, with r_enc = 1 and
sk = 1. -/
def c7_circuit : MyCircuit := honest_circuit c7_m c7_r_encode 1 1 2

/-- The Instance of the test-message block: ct1 = G, ct2 = [2]G, pk = G. -/
def c7_inst : List F := [0, -1, 2, g2x, g2y, -1, 2]

/-! ### Helper lemmas -/

/-- Building the halo2 instance from three affine points yields exactly the
7-slot layout, whatever the random initialiser was. -/
lemma to_halo2_instance_affine (c1x c1y c2x c2y pkx pky r_encode rand : F) :
    to_halo2_instance
      { ct := { ct := { c1 := Point.affine c1x c1y, c2 := Point.affine c2x c2y }
                r_encode := r_encode }
        elgamal_public_key := Point.affine pkx pky } rand
      = some [0, c1x, c1y, c2x, c2y, pkx, pky] := rfl

/-- The random initialiser does not influence `to_halo2_instance`. -/
lemma to_halo2_instance_rand_irrelevant (i : MyInstance) (r1 r2 : F) :
    to_halo2_instance i r1 = to_halo2_instance i r2 := by
  obtain ⟨⟨⟨c1, c2⟩, re⟩, pk⟩ := i
  cases c1 <;> cases c2 <;> cases pk <;> rfl

/-- Characterisation of circuit satisfaction when the witnessed point and
the public key are affine. -/
lemma satisfies_iff (c : MyCircuit) (inst : List F) (px py pkx pky : F)
    (hp : c.p_m = Point.affine px py)
    (hk : c.elgamal_public_key = Point.affine pkx pky) :
    satisfies c inst ↔
      (c.m + c.ct.r_encode - px = 0 ∧
       px * (px * px) + 5 - py * py = 0 ∧
       inst.getD ELGAMAL_CT1_X 0 = xCoord (scalarMul c.r_enc.val generator) ∧
       inst.getD ELGAMAL_CT1_Y 0 = yCoord (scalarMul c.r_enc.val generator) ∧
       inst.getD ELGAMAL_PK_X 0 = pkx ∧
       inst.getD ELGAMAL_PK_Y 0 = pky ∧
       inst.getD ELGAMAL_CT2_X 0
         = xCoord (pointAdd (scalarMul c.r_enc.val c.elgamal_public_key) c.p_m) ∧
       inst.getD ELGAMAL_CT2_Y 0
         = yCoord (pointAdd (scalarMul c.r_enc.val c.elgamal_public_key) c.p_m)) := by
  unfold satisfies checks synthesize
  rw [hp, hk]
  simp only [coordinates, List.all_cons, List.all_nil, Constraint.check,
    Bool.and_eq_true, decide_eq_true_eq, Bool.and_true]

/-- A satisfying witness has an affine (non-identity) `p_m` and public key. -/
lemma satisfies_affine (c : MyCircuit) (inst : List F) (h : satisfies c inst) :
    (∃ px py, c.p_m = Point.affine px py) ∧
      (∃ qx qy, c.elgamal_public_key = Point.affine qx qy) := by
  unfold satisfies checks synthesize at h
  cases hp : c.p_m with
  | identity => rw [hp] at h; simp [coordinates] at h
  | affine px py =>
    cases hk : c.elgamal_public_key with
    | identity => rw [hp, hk] at h; simp [coordinates] at h
    | affine qx qy => exact ⟨⟨px, py, rfl⟩, ⟨qx, qy, rfl⟩⟩

instance (c : MyCircuit) (inst : List F) : Decidable (satisfies c inst) :=
  inferInstanceAs (Decidable (checks c inst = true))

/-- The concrete example satisfies the circuit. -/
lemma exSat : satisfies exCircuit exInst := by decide

/-! ### Claims -/

/-- C1: the public Instance built for a proof is the ordered sequence of
exactly 7 field scalars [zero, ct.c1.x, ct.c1.y, ct.c2.x, ct.c2.y,
public_key.x, public_key.y], slot 0 holding the constant 0 and each
remaining slot holding exactly the affine coordinate of the corresponding
point. -/
theorem instance_layout_seven_slots (c1x c1y c2x c2y pkx pky r_encode rand : F) :
    to_halo2_instance
      { ct := { ct := { c1 := Point.affine c1x c1y, c2 := Point.affine c2x c2y }
                r_encode := r_encode }
        elgamal_public_key := Point.affine pkx pky } rand
      = some [0, c1x, c1y, c2x, c2y, pkx, pky] := rfl

/-- C2: whenever the circuit is satisfied, the field equation
m + r_encode − p_m.x = 0 holds: a proof can only be produced when the
x-coordinate of the encoded point equals the sum of the message scalar and
the encoding randomness. -/
theorem circuit_enforces_encode_sum (c : MyCircuit) (inst : List F)
    (h : satisfies c inst) :
    c.m + c.ct.r_encode - xCoord c.p_m = 0 := by
  obtain ⟨⟨px, py, hp⟩, ⟨qx, qy, hk⟩⟩ := satisfies_affine c inst h
  have h1 := ((satisfies_iff c inst px py qx qy hp hk).mp h).1
  rw [hp]
  exact h1

/-- C2 witness: the theorem applied to the concrete satisfying example. -/
theorem circuit_enforces_encode_sum_witness :
    exCircuit.m + exCircuit.ct.r_encode - xCoord exCircuit.p_m = 0 :=
  circuit_enforces_encode_sum exCircuit exInst (by decide)

/-- C3: whenever the circuit is satisfied, the witnessed point satisfies the
curve-membership equation p_m.x³ + 5 − p_m.y² = 0, computed as x·x·x plus
the constant 5 minus y·y. -/
theorem circuit_enforces_curve_membership (c : MyCircuit) (inst : List F)
    (h : satisfies c inst) :
    xCoord c.p_m * xCoord c.p_m * xCoord c.p_m + 5
      - yCoord c.p_m * yCoord c.p_m = 0 := by
  obtain ⟨⟨px, py, hp⟩, ⟨qx, qy, hk⟩⟩ := satisfies_affine c inst h
  have h2 := ((satisfies_iff c inst px py qx qy hp hk).mp h).2.1
  rw [hp]
  dsimp only [xCoord, yCoord]
  linear_combination h2

/-- C3 witness: the theorem applied to the concrete satisfying example. -/
theorem circuit_enforces_curve_membership_witness :
    xCoord exCircuit.p_m * xCoord exCircuit.p_m * xCoord exCircuit.p_m + 5
      - yCoord exCircuit.p_m * yCoord exCircuit.p_m = 0 :=
  circuit_enforces_curve_membership exCircuit exInst (by decide)

/-- C4: whenever the circuit is satisfied, the in-circuit value
[r_enc]·Generator is bound coordinate-wise to Instance slots 1 and 2, the
in-circuit value p_m + [r_enc]·public_key to slots 3 and 4, and the public
key itself to slots 5 and 6. -/
theorem circuit_binds_elgamal_instance (c : MyCircuit) (inst : List F)
    (h : satisfies c inst) :
    inst.getD ELGAMAL_CT1_X 0 = xCoord (scalarMul c.r_enc.val generator) ∧
    inst.getD ELGAMAL_CT1_Y 0 = yCoord (scalarMul c.r_enc.val generator) ∧
    inst.getD ELGAMAL_CT2_X 0
      = xCoord (pointAdd (scalarMul c.r_enc.val c.elgamal_public_key) c.p_m) ∧
    inst.getD ELGAMAL_CT2_Y 0
      = yCoord (pointAdd (scalarMul c.r_enc.val c.elgamal_public_key) c.p_m) ∧
    inst.getD ELGAMAL_PK_X 0 = xCoord c.elgamal_public_key ∧
    inst.getD ELGAMAL_PK_Y 0 = yCoord c.elgamal_public_key := by
  obtain ⟨⟨px, py, hp⟩, ⟨qx, qy, hk⟩⟩ := satisfies_affine c inst h
  obtain ⟨h1, h2, h3, h4, h5, h6, h7, h8⟩ :=
    (satisfies_iff c inst px py qx qy hp hk).mp h
  refine ⟨h3, h4, h7, h8, ?_, ?_⟩
  · rw [hk]; exact h5
  · rw [hk]; exact h6

/-- C4 witness: the theorem applied to the concrete satisfying example. -/
theorem circuit_binds_elgamal_instance_witness :
    exInst.getD ELGAMAL_CT1_X 0
      = xCoord (scalarMul exCircuit.r_enc.val generator) ∧
    exInst.getD ELGAMAL_CT1_Y 0
      = yCoord (scalarMul exCircuit.r_enc.val generator) ∧
    exInst.getD ELGAMAL_CT2_X 0
      = xCoord (pointAdd
          (scalarMul exCircuit.r_enc.val exCircuit.elgamal_public_key)
          exCircuit.p_m) ∧
    exInst.getD ELGAMAL_CT2_Y 0
      = yCoord (pointAdd
          (scalarMul exCircuit.r_enc.val exCircuit.elgamal_public_key)
          exCircuit.p_m) ∧
    exInst.getD ELGAMAL_PK_X 0 = xCoord exCircuit.elgamal_public_key ∧
    exInst.getD ELGAMAL_PK_Y 0 = yCoord exCircuit.elgamal_public_key :=
  circuit_binds_elgamal_instance exCircuit exInst (by decide)

/-- C8: the Instance is a function of the ciphertext and public key only:
two circuits sharing the same transmitted ciphertext data and public key but
differing in m, p_m, or r_enc produce identical 7-slot Instances. -/
theorem instance_independent_of_witness (ct : DataInTransmit) (pk : Point)
    (m1 m2 : F) (pm1 pm2 : Point) (re1 re2 r1 r2 : F) :
    to_halo2_instance (circuitInstance
      { ct := ct, elgamal_public_key := pk, m := m1, p_m := pm1, r_enc := re1 }) r1
    = to_halo2_instance (circuitInstance
      { ct := ct, elgamal_public_key := pk, m := m2, p_m := pm2, r_enc := re2 }) r2 :=
  to_halo2_instance_rand_irrelevant { ct := ct, elgamal_public_key := pk } r1 r2

/-- C9: if the witnessed point p_m is the identity point, no assignment
satisfies the circuit (loading it as a `NonIdentityPoint` is unsatisfiable,
never a special-cased success). -/
theorem identity_pm_unsatisfiable (c : MyCircuit) (inst : List F)
    (hp : c.p_m = Point.identity) : ¬ satisfies c inst := by
  intro h
  obtain ⟨⟨px, py, hp2⟩, _⟩ := satisfies_affine c inst h
  rw [hp] at hp2
  exact Point.noConfusion hp2

/-- C9 witness: the theorem applied at the identity point and a concrete
instance. -/
theorem identity_pm_unsatisfiable_witness :
    ¬ satisfies { exCircuit with p_m := Point.identity } exInst :=
  identity_pm_unsatisfiable { exCircuit with p_m := Point.identity } exInst rfl

/-- C5 counterexample: in a satisfiable circuit/instance pair whose encode
randomness is 42, the value 42 occupies no Instance slot and no emitted
constraint binds it to the instance column: r_encode is loaded as a private
witness cell and is not part of any verifier-visible check. -/
theorem r_encode_not_verifier_visible_cex :
    satisfies exCircuit exInst ∧
    exCircuit.ct.r_encode = 42 ∧
    (exInst.all fun v => decide (v ≠ 42)) = true ∧
    synthesize exCircuit = some exConstraints ∧
    (exConstraints.all fun con => !(bindsValue con 42)) = true := by
  decide

/-- C5 amended: r_encode enters the circuit as a privately loaded value: it
appears in the in-circuit zero check m + r_encode − p_m.x, while the
instance-bound slots are exactly the six point-coordinate slots — r_encode
itself is never bound to the Instance. -/
theorem r_encode_private_in_circuit (c : MyCircuit) (px py pkx pky : F)
    (hp : c.p_m = Point.affine px py)
    (hk : c.elgamal_public_key = Point.affine pkx pky) :
    ∃ cs, synthesize c = some cs ∧
      Constraint.eqZero (c.m + c.ct.r_encode - px) ∈ cs ∧
      boundSlots cs = [ELGAMAL_CT1_X, ELGAMAL_CT1_Y, ELGAMAL_PK_X,
        ELGAMAL_PK_Y, ELGAMAL_CT2_X, ELGAMAL_CT2_Y] := by
  unfold synthesize
  rw [hp, hk]
  refine ⟨_, rfl, List.mem_cons_self _ _, rfl⟩

/-- C5 amended witness: the amended theorem at the concrete example. -/
theorem r_encode_private_in_circuit_witness :
    ∃ cs, synthesize exCircuit = some cs ∧
      Constraint.eqZero (exCircuit.m + exCircuit.ct.r_encode - (-1)) ∈ cs ∧
      boundSlots cs = [ELGAMAL_CT1_X, ELGAMAL_CT1_Y, ELGAMAL_PK_X,
        ELGAMAL_PK_Y, ELGAMAL_CT2_X, ELGAMAL_CT2_Y] :=
  r_encode_private_in_circuit exCircuit (-1) 2 (-1) 2 rfl rfl

/-- C6: for every message scalar and freshly sampled r_encode, r_enc and
keypair, the honest witness — the encoded point with x = r_encode + m and y
on the curve, encrypted under the keypair's public key — satisfies every
circuit constraint against the Instance built from the resulting ciphertext
and public key, so proving then verifying accepts. -/
theorem round_trip_accepts (m r_encode r_enc sk y rand : F)
    (hcurve : y * y = (r_encode + m) * ((r_encode + m) * (r_encode + m)) + 5)
    (hpk : elgamal_public_key_of sk ≠ Point.identity)
    (hc1 : scalarMul r_enc.val generator ≠ Point.identity)
    (hc2 : pointAdd (scalarMul r_enc.val (elgamal_public_key_of sk))
        (Point.affine (r_encode + m) y) ≠ Point.identity) :
    ∃ inst,
      to_halo2_instance (circuitInstance (honest_circuit m r_encode r_enc sk y)) rand
        = some inst
      ∧ satisfies (honest_circuit m r_encode r_enc sk y) inst := by
  obtain ⟨pkx, pky, hpkeq⟩ : ∃ a b, elgamal_public_key_of sk = Point.affine a b := by
    cases hq : elgamal_public_key_of sk with
    | identity => exact absurd hq hpk
    | affine a b => exact ⟨a, b, rfl⟩
  obtain ⟨c1x, c1y, hc1eq⟩ : ∃ a b, scalarMul r_enc.val generator = Point.affine a b := by
    cases hq : scalarMul r_enc.val generator with
    | identity => exact absurd hq hc1
    | affine a b => exact ⟨a, b, rfl⟩
  obtain ⟨c2x, c2y, hc2eq⟩ :
      ∃ a b, pointAdd (scalarMul r_enc.val (elgamal_public_key_of sk))
        (Point.affine (r_encode + m) y) = Point.affine a b := by
    cases hq : pointAdd (scalarMul r_enc.val (elgamal_public_key_of sk))
        (Point.affine (r_encode + m) y) with
    | identity => exact absurd hq hc2
    | affine a b => exact ⟨a, b, rfl⟩
  refine ⟨[0, c1x, c1y, c2x, c2y, pkx, pky], ?_, ?_⟩
  · have hinst : circuitInstance (honest_circuit m r_encode r_enc sk y)
        = { ct := { ct := { c1 := Point.affine c1x c1y, c2 := Point.affine c2x c2y }
                    r_encode := r_encode }
            elgamal_public_key := Point.affine pkx pky } := by
      dsimp only [circuitInstance, honest_circuit, elgamal_encrypt]
      rw [hc1eq, hc2eq, hpkeq]
    rw [hinst]
    exact to_halo2_instance_affine c1x c1y c2x c2y pkx pky r_encode rand
  · refine (satisfies_iff _ _ (r_encode + m) y pkx pky rfl hpkeq).mpr ?_
    dsimp only [honest_circuit]
    rw [hc1eq, hc2eq]
    dsimp only [xCoord, yCoord]
    refine ⟨by ring, by linear_combination -hcurve, rfl, rfl, rfl, rfl, rfl, rfl⟩

/-- C6 witness: the round trip at a concrete message, encode randomness,
encryption randomness and keypair. -/
theorem round_trip_accepts_witness :
    ∃ inst,
      to_halo2_instance (circuitInstance (honest_circuit (-43) 42 1 1 2)) 7
        = some inst
      ∧ satisfies (honest_circuit (-43) 42 1 1 2) inst :=
  round_trip_accepts (-43) 42 1 1 2 7 (by decide) (by decide) (by decide) (by decide)

/-- C7 counterexample: splitting the test message with block_size = 31
yields exactly one block, but that block has 24 bytes, not 25. -/
theorem test_message_block_size_cex :
    ¬ ((split_message_into_blocks message_bytes 31).map List.length = [25]) ∧
    (split_message_into_blocks message_bytes 31).map List.length = [24] := by
  decide

/-- C7 amended: the test message splits into exactly one block of 24 bytes;
encoding that block's scalar (with randomness placing it at the generator's
x-coordinate) succeeds, the honest encryption is formed, the Instance is
built, and the honest witness satisfies every circuit constraint against
it. -/
theorem concrete_scenario_round_trip :
    split_message_into_blocks message_bytes 31 = [message_bytes] ∧
    message_bytes.length = 24 ∧
    is_encode_of c7_m c7_r_encode c7_circuit.p_m = true ∧
    c7_circuit.ct.ct
      = elgamal_encrypt (elgamal_public_key_of 1) c7_circuit.p_m 1 ∧
    to_halo2_instance (circuitInstance c7_circuit) 0 = some c7_inst ∧
    satisfies c7_circuit c7_inst := by
  decide

/-- C10: `to_halo2_instance` is deterministic despite initialising its
7-element array with a randomly sampled scalar: every slot is overwritten
from the ciphertext, the public key, or the constant zero, so two calls on
equal inputs return equal instance arrays whatever the sampled value was. -/
theorem to_halo2_instance_deterministic (i : MyInstance) (r1 r2 : F) :
    to_halo2_instance i r1 = to_halo2_instance i r2 :=
  to_halo2_instance_rand_irrelevant i r1 r2

end VerEnc
